import Mathlib

/-!
Verification of the enhancement pipeline in `denoiser/enhance.py`.

The embedding is shallow: tensors are lists of rationals (PyTorch float
arithmetic is modelled exactly over ℚ), the filesystem walk performed by
`os.walk` is modelled by its output stream, and side effects (directory
creation, file writes, logging) are modelled as explicit effect traces.
-/

namespace Denoiser

/-! ## Inference strategy selector: `get_estimate` (enhance.py lines 61-73)

Batch mode (the `else` branch, lines 70-72):
    estimate = model(noisy)
    estimate = (1 - args.dry) * estimate + args.dry * noisy
All tensor operations are elementwise, so a flat list of samples is a
faithful carrier.  `model` is the external inference capability, kept
abstract as a function on tensors. -/

/-- The dry/wet linear blend `(1 - dry) * estimate + dry * noisy`, elementwise
(enhance.py line 72). -/
def dryWetBlend (dry : ℚ) (estimate noisy : List ℚ) : List ℚ :=
  List.zipWith (fun e n => (1 - dry) * e + dry * n) estimate noisy

/-- Batch-mode `get_estimate` (enhance.py lines 70-72): one forward call of the
model followed by the dry/wet blend with the original noisy signal. -/
def get_estimate_batch (model : List ℚ → List ℚ) (dry : ℚ) (noisy : List ℚ) :
    List ℚ :=
  dryWetBlend dry (model noisy) noisy

theorem zipWith_left_of_length_eq (l l' : List ℚ) (h : l.length = l'.length) :
    List.zipWith (fun e _ => e) l l' = l := by
  induction l generalizing l' with
  | nil => simp
  | cons a t ih =>
    cases l' with
    | nil => simp at h
    | cons b t' =>
      simp only [List.zipWith_cons_cons, List.cons.injEq, true_and]
      exact ih t' (by simpa using h)

theorem zipWith_right_of_length_eq (l l' : List ℚ) (h : l.length = l'.length) :
    List.zipWith (fun _ n => n) l l' = l' := by
  induction l generalizing l' with
  | nil => cases l' with
    | nil => simp
    | cons b t' => simp at h
  | cons a t ih =>
    cases l' with
    | nil => simp at h
    | cons b t' =>
      simp only [List.zipWith_cons_cons, List.cons.injEq, true_and]
      exact ih t' (by simpa using h)

/-! ## Output writer: `write` (enhance.py lines 95-98)

    wav = wav / max(wav.abs().max().item(), 1)
    torchaudio.save(filename, wav.cpu(), sr)

`wav.abs().max()` is the peak absolute amplitude; every absolute value is
nonnegative, so folding `max` with initial value 0 computes it exactly for a
nonempty waveform. -/

/-- Peak absolute amplitude `wav.abs().max().item()` of a waveform. -/
def maxAbs (wav : List ℚ) : ℚ :=
  wav.foldr (fun x m => max |x| m) 0

/-- The waveform persisted by `write` (enhance.py line 97): every sample is
divided by `max(peak, 1)`. -/
def write (wav : List ℚ) : List ℚ :=
  wav.map (fun x => x / max (maxAbs wav) 1)

theorem maxAbs_nonneg (wav : List ℚ) : 0 ≤ maxAbs wav := by
  induction wav with
  | nil => simp [maxAbs]
  | cons a t ih =>
    simp only [maxAbs, List.foldr_cons] at *
    exact le_max_of_le_right ih

theorem maxAbs_map_div (wav : List ℚ) (c : ℚ) (hc : 0 < c) :
    maxAbs (wav.map (fun x => x / c)) = maxAbs wav / c := by
  induction wav with
  | nil => simp [maxAbs]
  | cons a t ih =>
    simp only [maxAbs, List.map_cons, List.foldr_cons] at *
    rw [ih, abs_div, abs_of_pos hc, max_div_div_right hc.le]

theorem mem_le_maxAbs (wav : List ℚ) (x : ℚ) (hx : x ∈ wav) : |x| ≤ maxAbs wav := by
  induction wav with
  | nil => simp at hx
  | cons a t ih =>
    simp only [maxAbs, List.foldr_cons]
    rcases List.mem_cons.mp hx with h | h
    · exact h ▸ le_max_left _ _
    · exact le_max_of_le_right (ih h)

end Denoiser

namespace Denoiser

/-- C1: In batch mode, `get_estimate` returns the elementwise blend
`(1 - dry) * model(noisy) + dry * noisy`; for `dry = 0` it equals the raw
model output exactly, and for `dry = 1` it equals the noisy input exactly.
The hypothesis records that the model output has the shape of its input
(spec §4.4: "same shape as input"). -/
theorem get_estimate_batch_blend (model : List ℚ → List ℚ) (dry : ℚ)
    (noisy : List ℚ) (hlen : (model noisy).length = noisy.length) :
    get_estimate_batch model dry noisy =
      List.zipWith (fun e n => (1 - dry) * e + dry * n) (model noisy) noisy ∧
    (dry = 0 → get_estimate_batch model dry noisy = model noisy) ∧
    (dry = 1 → get_estimate_batch model dry noisy = noisy) := by
  refine ⟨rfl, ?_, ?_⟩
  · rintro rfl
    unfold get_estimate_batch dryWetBlend
    have : (fun (e n : ℚ) => (1 - 0) * e + 0 * n) = fun e _ => e := by
      funext e n; ring
    rw [this]
    exact zipWith_left_of_length_eq _ _ hlen
  · rintro rfl
    unfold get_estimate_batch dryWetBlend
    have : (fun (e n : ℚ) => (1 - 1) * e + 1 * n) = fun _ n => n := by
      funext e n; ring
    rw [this]
    exact zipWith_right_of_length_eq _ _ hlen

/-- Witness for C1 at a concrete model and input. -/
theorem get_estimate_batch_blend_witness :
    get_estimate_batch (fun l => l.map (fun x => x / 2)) 1 [4, -6] = [4, -6] :=
  (get_estimate_batch_blend (fun l => l.map (fun x => x / 2)) 1 [4, -6]
    (by decide)).2.2 rfl

theorem getD_map_div (l : List ℚ) (c : ℚ) (i : ℕ) :
    (l.map (fun x => x / c)).getD i 0 = l.getD i 0 / c := by
  induction l generalizing i with
  | nil => simp
  | cons a t ih =>
    cases i with
    | zero => simp
    | succ n => simpa using ih n

/-- C2: `write` persists a waveform whose peak is at most 1 unchanged; when
the peak exceeds 1 it divides every sample by the peak, so the persisted peak
is exactly 1 and cross ratios between samples are preserved; it never
amplifies a sample.  The nonemptiness hypothesis matches torch, whose `max`
over an empty tensor is an error. -/
theorem write_normalization (wav : List ℚ) (h : wav ≠ []) :
    (maxAbs wav ≤ 1 → write wav = wav) ∧
    (1 < maxAbs wav →
      write wav = wav.map (fun x => x / maxAbs wav) ∧ maxAbs (write wav) = 1) ∧
    (∀ i : ℕ, |(write wav).getD i 0| ≤ |wav.getD i 0|) ∧
    (∀ i j : ℕ,
      (write wav).getD i 0 * wav.getD j 0 = (write wav).getD j 0 * wav.getD i 0) := by
  refine ⟨?_, ?_, ?_, ?_⟩
  · intro hp
    have hmax : max (maxAbs wav) 1 = 1 := max_eq_right hp
    unfold write
    rw [hmax]
    simp
  · intro hp
    have hmax : max (maxAbs wav) 1 = maxAbs wav := max_eq_left hp.le
    have hpos : 0 < maxAbs wav := lt_trans one_pos hp
    constructor
    · unfold write; rw [hmax]
    · unfold write
      rw [hmax, maxAbs_map_div wav (maxAbs wav) hpos, div_self (ne_of_gt hpos)]
  · intro i
    have hc : (1 : ℚ) ≤ max (maxAbs wav) 1 := le_max_right _ _
    have hcpos : (0 : ℚ) < max (maxAbs wav) 1 := lt_of_lt_of_le one_pos hc
    unfold write
    rw [getD_map_div, abs_div, abs_of_pos hcpos]
    exact div_le_self (abs_nonneg _) hc
  · intro i j
    unfold write
    rw [getD_map_div, getD_map_div]
    ring

/-- Witness for C2: a concrete waveform with peak 3 is scaled to peak 1. -/
theorem write_normalization_witness :
    write [(3 : ℚ), -1] = [(3 : ℚ), -1].map (fun x => x / maxAbs [(3 : ℚ), -1]) ∧
    maxAbs (write [(3 : ℚ), -1]) = 1 :=
  (write_normalization [(3 : ℚ), -1] (by decide)).2.1 (by norm_num [maxAbs])

end Denoiser

namespace Denoiser

/-! ## Output writer paths: `save_wavs` (enhance.py lines 76-92)

    cls = filename.split('/')[-3]
    vid = filename.split('/')[-2]
    file = filename.split('/')[-1]
    if not os.path.exists(os.path.join(out_dir, cls)): os.makedirs(...)
    if not os.path.exists(os.path.join(out_dir, cls, vid)): os.makedirs(...)
    filename = os.path.join(out_dir, cls, vid, file)
    write(estimate, filename, sr=sr)

Paths are character lists; Python raises `IndexError` on `[-3]` when the
split yields fewer than three segments, before any filesystem effect. -/

/-- Python `s.split('/')`: the list of `'/'`-separated segments (never
empty; the empty string splits to `[[]]`). -/
def splitSlash : List Char → List (List Char)
  | [] => [[]]
  | c :: rest =>
    match splitSlash rest with
    | [] => [[c]]
    | g :: gs => if c = '/' then [] :: g :: gs else (c :: g) :: gs

/-- POSIX `os.path.join` of two components. -/
def osJoin (a b : List Char) : List Char :=
  if b.head? = some '/' then b
  else if a = [] then b
  else if a.getLast? = some '/' then a ++ b
  else a ++ '/' :: b

/-- Filesystem effects of `save_wavs` for one item, in program order. -/
inductive SaveEffect where
  | ensureDir (p : List Char)
  | writeFile (p : List Char)
deriving DecidableEq

/-- Model of `save_wavs` for a single `(estimate, filename)` pair (enhance.py lines
78-92): splits the source path, derives the two-level destination
subdirectory and the final path via `os.path.join`, and returns the effect
trace together with the written path.  A source path with fewer than three
segments raises `IndexError` before any effect. -/
def save_wavs_one (out_dir filename : List Char) :
    Except String (List SaveEffect × List Char) :=
  let segs := splitSlash filename
  if segs.length < 3 then .error "IndexError"
  else
    let cls := segs.getD (segs.length - 3) []
    let vid := segs.getD (segs.length - 2) []
    let file := segs.getD (segs.length - 1) []
    let d1 := osJoin out_dir cls
    let d2 := osJoin d1 vid
    let path := osJoin d2 file
    .ok ([.ensureDir d1, .ensureDir d2, .writeFile path], path)

theorem splitSlash_ne_nil (s : List Char) : splitSlash s ≠ [] := by
  cases s with
  | nil => simp [splitSlash]
  | cons c rest =>
    unfold splitSlash
    cases h : splitSlash rest with
    | nil => simp
    | cons g gs => by_cases hc : c = '/' <;> simp [hc]

theorem not_slash_of_mem_splitSlash (s : List Char) :
    ∀ p ∈ splitSlash s, '/' ∉ p := by
  induction s with
  | nil => intro p hp; simp [splitSlash] at hp; simp [hp]
  | cons c rest ih =>
    intro p hp
    unfold splitSlash at hp
    cases h : splitSlash rest with
    | nil => exact absurd h (splitSlash_ne_nil rest)
    | cons g gs =>
      rw [h] at hp
      by_cases hc : c = '/'
      · simp only [if_pos hc] at hp
        rcases List.mem_cons.mp hp with h1 | h1
        · simp [h1]
        · exact ih p (h ▸ h1)
      · simp only [if_neg hc] at hp
        rcases List.mem_cons.mp hp with h1 | h1
        · subst h1
          intro hmem
          rcases List.mem_cons.mp hmem with h2 | h2
          · exact hc h2.symm
          · exact ih g (h ▸ List.mem_cons_self g gs) h2
        · exact ih p (h ▸ List.mem_cons.mpr (Or.inr h1))

theorem mem_of_getD (l : List (List Char)) (i : ℕ) (h : i < l.length) :
    l.getD i [] ∈ l := by
  rw [List.getD_eq_getD_get?]
  cases hg : l.get? i with
  | none =>
    rw [List.get?_eq_none] at hg
    omega
  | some a => simpa using List.get?_mem hg

theorem osJoin_sep (a b : List Char) (ha : a ≠ []) (ha2 : a.getLast? ≠ some '/')
    (hb : b.head? ≠ some '/') : osJoin a b = a ++ '/' :: b := by
  unfold osJoin
  rw [if_neg hb, if_neg ha, if_neg ha2]

theorem head?_ne_slash (l : List Char) (h : '/' ∉ l) : l.head? ≠ some '/' := by
  cases l with
  | nil => simp
  | cons c t =>
    intro hc
    have hce : c = '/' := by simpa using hc
    subst hce
    exact h (List.mem_cons_self _ _)

theorem getLast?_ne_slash (l : List Char) (h : '/' ∉ l) :
    l.getLast? ≠ some '/' := by
  intro hc
  obtain ⟨hne, heq⟩ :=
    List.mem_getLast?_eq_getLast (Option.mem_def.mpr hc)
  refine h ?_
  rw [heq]
  exact List.getLast_mem hne

theorem getLast?_append_cons_of_ne_nil (a : List Char) (c : Char)
    (b : List Char) (hb : b ≠ []) : (a ++ c :: b).getLast? = b.getLast? := by
  rw [List.getLast?_append_cons]
  cases b with
  | nil => simp at hb
  | cons x t => exact List.getLast?_cons_cons

/-- Python negative indexing `filename.split('/')[-k]` (for `k ≤` the number
of segments). -/
def pySegAt (filename : List Char) (k : ℕ) : List Char :=
  let segs := splitSlash filename
  segs.getD (segs.length - k) []

/-- The claimed output path from the spec, as literal concatenation:
`out_dir/<3rd-from-last segment>/<2nd-from-last segment>/<last segment>`. -/
def specSavePath (out_dir filename : List Char) : List Char :=
  out_dir ++ '/' :: pySegAt filename 3 ++ '/' :: pySegAt filename 2 ++
    '/' :: pySegAt filename 1

/-- String literal to character-list path. -/
def chars (s : String) : List Char := s.data

end Denoiser

namespace Denoiser

/-- C9: `save_wavs` raises `IndexError` exactly when the source path has
fewer than three `'/'`-separated segments; the error occurs at the negative
indexing, before any directory creation or file write (the error branch of
`save_wavs_one` carries no effect trace), and with at least three segments
that error branch is unreachable. -/
theorem save_wavs_one_index_error (out_dir filename : List Char) :
    save_wavs_one out_dir filename = Except.error "IndexError" ↔
      (splitSlash filename).length < 3 := by
  unfold save_wavs_one
  by_cases h : (splitSlash filename).length < 3
  · simp [h]
  · simp [h]

/-- C3: with at least three segments (the last three nonempty, the output
directory nonempty and not ending in the separator), `save_wavs` writes the
estimate to exactly `out_dir/<3rd-from-last>/<2nd-from-last>/<last>`, the
last segment kept verbatim as the filename. -/
theorem save_wavs_one_path (out_dir filename : List Char)
    (h3 : 3 ≤ (splitSlash filename).length)
    (hout : out_dir ≠ []) (hout2 : out_dir.getLast? ≠ some '/')
    (hcls : pySegAt filename 3 ≠ [])
    (hvid : pySegAt filename 2 ≠ []) :
    save_wavs_one out_dir filename =
      Except.ok
        ([SaveEffect.ensureDir (out_dir ++ '/' :: pySegAt filename 3),
          SaveEffect.ensureDir
            (out_dir ++ '/' :: pySegAt filename 3 ++ '/' :: pySegAt filename 2),
          SaveEffect.writeFile (specSavePath out_dir filename)],
         specSavePath out_dir filename) := by
  have hclsm : pySegAt filename 3 ∈ splitSlash filename :=
    mem_of_getD _ _ (by omega)
  have hvidm : pySegAt filename 2 ∈ splitSlash filename :=
    mem_of_getD _ _ (by omega)
  have hfilem : pySegAt filename 1 ∈ splitSlash filename :=
    mem_of_getD _ _ (by omega)
  have hclsns : '/' ∉ pySegAt filename 3 :=
    not_slash_of_mem_splitSlash filename _ hclsm
  have hvidns : '/' ∉ pySegAt filename 2 :=
    not_slash_of_mem_splitSlash filename _ hvidm
  have hfilens : '/' ∉ pySegAt filename 1 :=
    not_slash_of_mem_splitSlash filename _ hfilem
  have e1 : osJoin out_dir (pySegAt filename 3) =
      out_dir ++ '/' :: pySegAt filename 3 :=
    osJoin_sep _ _ hout hout2 (head?_ne_slash _ hclsns)
  have e2 : osJoin (out_dir ++ '/' :: pySegAt filename 3) (pySegAt filename 2) =
      out_dir ++ '/' :: pySegAt filename 3 ++ '/' :: pySegAt filename 2 := by
    refine osJoin_sep _ _ (by simp) ?_ (head?_ne_slash _ hvidns)
    rw [getLast?_append_cons_of_ne_nil _ _ _ hcls]
    exact getLast?_ne_slash _ hclsns
  have e3 : osJoin
      (out_dir ++ '/' :: pySegAt filename 3 ++ '/' :: pySegAt filename 2)
      (pySegAt filename 1) = specSavePath out_dir filename := by
    refine osJoin_sep _ _ (by simp) ?_ (head?_ne_slash _ hfilens)
    rw [getLast?_append_cons_of_ne_nil _ _ _ hvid]
    exact getLast?_ne_slash _ hvidns
  unfold save_wavs_one
  rw [if_neg (by omega)]
  simp only [show (splitSlash filename).getD ((splitSlash filename).length - 3) []
      = pySegAt filename 3 from rfl,
    show (splitSlash filename).getD ((splitSlash filename).length - 2) []
      = pySegAt filename 2 from rfl,
    show (splitSlash filename).getD ((splitSlash filename).length - 1) []
      = pySegAt filename 1 from rfl,
    e1, e2, e3]

/-- Witness for C3: the spec's own example,
`/data/classA/rec007/utt3.wav` with `out_dir = /out`. -/
theorem save_wavs_one_path_witness :
    save_wavs_one (chars "/out") (chars "/data/classA/rec007/utt3.wav") =
      Except.ok
        ([SaveEffect.ensureDir (chars "/out/classA"),
          SaveEffect.ensureDir (chars "/out/classA/rec007"),
          SaveEffect.writeFile (chars "/out/classA/rec007/utt3.wav")],
         chars "/out/classA/rec007/utt3.wav") := by
  rw [save_wavs_one_path (chars "/out") (chars "/data/classA/rec007/utt3.wav")
    (by decide) (by decide) (by decide) (by decide) (by decide)]
  rfl

/-! ## Streaming mode of `get_estimate` (enhance.py lines 63-68)

    streamer = DemucsStreamer(model, dry=args.dry)
    estimate = torch.cat([streamer.feed(noisy[0]), streamer.flush()], dim=1)[None]

`DemucsStreamer` is an external collaborator (imported from `demucs`); it is
freshly constructed per call and fed exactly once, so the emitted and flushed
chunks are pure functions of the single fed chunk `noisy[0]`.  They are kept
abstract as `feed` and `flush` (already bound to the model and `dry`).
`noisy[0]` is `head?` (an error on an empty batch), `torch.cat(..., dim=1)`
is rowwise concatenation, and `[None]` wraps the result in a batch of one. -/

/-- Rowwise concatenation `torch.cat([a, b], dim=1)` on 2-D tensors. -/
def hcat (a b : List (List ℚ)) : List (List ℚ) :=
  List.zipWith (fun r s => r ++ s) a b

/-- Streaming-mode `get_estimate` (enhance.py lines 63-68). -/
def get_estimate_streaming (feed flush : List (List ℚ) → List (List ℚ))
    (noisy : List (List (List ℚ))) : Option (List (List (List ℚ))) :=
  noisy.head?.map (fun x => [hcat (feed x) (flush x)])

/-- C10: streaming-mode `get_estimate` depends only on the first element of
the batch — two batches with equal first items give identical output — and
every output has leading batch dimension 1. -/
theorem get_estimate_streaming_first_only
    (feed flush : List (List ℚ) → List (List ℚ))
    (n1 n2 : List (List (List ℚ))) (hh : n1.head? = n2.head?) :
    get_estimate_streaming feed flush n1 = get_estimate_streaming feed flush n2 ∧
    ∀ r, get_estimate_streaming feed flush n1 = some r → r.length = 1 := by
  constructor
  · unfold get_estimate_streaming
    rw [hh]
  · intro r hr
    unfold get_estimate_streaming at hr
    cases hn : n1.head? with
    | none => rw [hn] at hr; simp at hr
    | some x =>
      rw [hn] at hr
      have hx : ([hcat (feed x) (flush x)] : List (List (List ℚ))) = r := by
        simpa using hr
      rw [← hx]
      rfl

/-- Witness for C10: batches `[[[1]], [[2]]]` and `[[[1]], [[3]]]` share
their first item and give the same singleton-batch output. -/
theorem get_estimate_streaming_first_only_witness :
    get_estimate_streaming id id [[[(1 : ℚ)]], [[2]]] =
      get_estimate_streaming id id [[[(1 : ℚ)]], [[3]]] ∧
    get_estimate_streaming id id [[[(1 : ℚ)]], [[2]]] = some [[[1, 1]]] :=
  ⟨(get_estimate_streaming_first_only id id _ _ rfl).1, rfl⟩

end Denoiser

namespace Denoiser

/-! ## Manifest discovery: `generate_json` (enhance.py lines 150-164)

    audio_files = []
    for root, folders, files in os.walk(base_path, followlinks=True):
        for file in files:
            file = Path(root) / file
            if file.suffix.lower() in exts:
                audio_files.append(str(file.resolve()))
    meta = []
    for idx, file in enumerate(audio_files):
        siginfo, _ = torchaudio.info(file)
        length = siginfo.length // siginfo.channels
        meta.append((file, length))
    with open(json_name, 'w') as outfile:
        json.dump(meta, outfile)

`os.walk` is an external collaborator; it is modelled by its output stream,
with the contract that a missing `base_path` yields the empty stream
(`os.walk` ignores errors by default and raises nothing).  `Path.resolve` is
the identity here: roots are taken as already absolute and symbolic links
are already followed by the walk.  `torchaudio.info` either returns the
header `(length, channels)` or raises; a raised probe aborts `generate_json`
before the manifest file is opened for writing, so an `error` result means
no manifest file is produced, while an `ok` result is exactly the manifest
written to `json_name`.  The extension set is the default `[".wav"]`. -/

/-- A file as seen in one `os.walk` entry: its name, and its header
`(length, channels)` as probed by `torchaudio.info`, `none` when the probe
raises. -/
structure FileInfo where
  name : String
  header : Option (Nat × Nat)
deriving DecidableEq

/-- The output stream of `os.walk(base_path, followlinks=True)`: pairs of a
root directory and the files directly in it, in walk order. -/
abbrev WalkOutput := List (String × List FileInfo)

/-- Index of the last `'.'` in a character list, as in Python `rfind`. -/
def rfindDot : List Char → Option ℕ
  | [] => none
  | c :: rest =>
    match rfindDot rest with
    | some i => some (i + 1)
    | none => if c = '.' then some 0 else none

/-- Python `Path(...).suffix`: `name[i:]` for the last `'.'` at index `i`
with `0 < i < len - 1`, else the empty string. -/
def pySuffix (name : String) : String :=
  match rfindDot name.data with
  | some i =>
    if 0 < i ∧ i < name.data.length - 1 then ⟨name.data.drop i⟩ else ""
  | none => ""

/-- The extension test `file.suffix.lower() in exts` with the default
`exts = [".wav"]`. -/
def extMatch (name : String) : Bool :=
  (⟨(pySuffix name).data.map Char.toLower⟩ : String) == ".wav"

/-- Collection phase of `generate_json` (lines 152-157): the nested walk
loop, appending the resolved path of every file whose lowered suffix
matches; the header travels with the path (probing it later looks the same
file up again). -/
def collectAudio (walkOut : WalkOutput) : List (String × Option (Nat × Nat)) :=
  walkOut.flatMap (fun rf =>
    rf.2.flatMap (fun f =>
      if extMatch f.name then [(rf.1 ++ "/" ++ f.name, f.header)] else []))

/-- Probe phase of `generate_json` (lines 158-161): probe each collected
file in order; the first failing probe raises (the error carries the
offending path), aborting before the manifest file is opened. -/
def probeAll :
    List (String × Option (Nat × Nat)) → Except String (List (String × Nat))
  | [] => .ok []
  | (p, none) :: _ => .error p
  | (p, some (len, ch)) :: rest =>
    (probeAll rest).map (fun m => (p, len / ch) :: m)

/-- Model of `generate_json` (lines 150-164); the filesystem argument is
`none` when `base_path` does not exist.  An `ok` value is the manifest
written to `json_name`; an `error` means no manifest file was written. -/
def generate_json (fs : Option WalkOutput) : Except String (List (String × Nat)) :=
  probeAll (collectAudio (fs.getD []))

/-- All files the walk enumerates, with their joined paths, in walk order
(no extension filter); the spec-level view of the walk. -/
def walkFiles (walkOut : WalkOutput) : List (String × FileInfo) :=
  walkOut.flatMap (fun rf => rf.2.map (fun f => (rf.1 ++ "/" ++ f.name, f)))

/-- Per-channel frame count `length // channels` of a probed header. -/
def headerFrames (h : Option (Nat × Nat)) : ℕ :=
  (h.getD (0, 1)).1 / (h.getD (0, 1)).2

/-- The manifest as the spec describes it: one entry per file whose
extension matches, in walk order, each entry the resolved path with the
per-channel frame count. -/
def specManifest (walkOut : WalkOutput) : List (String × Nat) :=
  ((walkFiles walkOut).filter (fun e => extMatch e.2.name)).map
    (fun e => (e.1, headerFrames e.2.header))

theorem collectDir_eq (root : String) (files : List FileInfo) :
    (files.flatMap (fun f =>
      if extMatch f.name then [(root ++ "/" ++ f.name, f.header)] else [])) =
    ((files.map (fun f => (root ++ "/" ++ f.name, f))).filter
        (fun e => extMatch e.2.name)).map (fun e => (e.1, e.2.header)) := by
  induction files with
  | nil => rfl
  | cons f t ih =>
    cases hf : extMatch f.name with
    | true => simp [hf, ih]
    | false => simp [hf, ih]

theorem collectAudio_eq (walkOut : WalkOutput) :
    collectAudio walkOut =
      ((walkFiles walkOut).filter (fun e => extMatch e.2.name)).map
        (fun e => (e.1, e.2.header)) := by
  induction walkOut with
  | nil => rfl
  | cons rf rest ih =>
    unfold collectAudio walkFiles at *
    simp only [List.flatMap_cons, List.filter_append, List.map_append]
    rw [ih, collectDir_eq]

theorem probeAll_ok (l : List (String × Option (Nat × Nat)))
    (h : ∀ e ∈ l, e.2 ≠ none) :
    probeAll l = .ok (l.map (fun e => (e.1, headerFrames e.2))) := by
  induction l with
  | nil => rfl
  | cons e t ih =>
    obtain ⟨p, hd⟩ := e
    cases hd with
    | none => exact absurd rfl (h (p, none) (List.mem_cons_self _ _))
    | some v =>
      obtain ⟨len, ch⟩ := v
      unfold probeAll
      rw [ih (fun x hx => h x (List.mem_cons.mpr (Or.inr hx)))]
      rfl

theorem probeAll_error (l : List (String × Option (Nat × Nat)))
    (h : ∃ e ∈ l, e.2 = none) :
    ∃ p, probeAll l = .error p := by
  induction l with
  | nil => simp at h
  | cons e t ih =>
    obtain ⟨p, hd⟩ := e
    cases hd with
    | none => exact ⟨p, rfl⟩
    | some v =>
      obtain ⟨len, ch⟩ := v
      obtain ⟨x, hx, hx2⟩ := h
      rcases List.mem_cons.mp hx with h1 | h1
      · rw [h1] at hx2; simp at hx2
      · obtain ⟨q, hq⟩ := ih ⟨x, h1, hx2⟩
        refine ⟨q, ?_⟩
        unfold probeAll
        rw [hq]
        rfl

/-- C7: when every collected file can be probed, `generate_json` produces
exactly one entry per walked file whose lowered suffix is `.wav`, in walk
order, each entry being the resolved path paired with
`length // channels`, the per-channel frame count. -/
theorem generate_json_manifest (walkOut : WalkOutput)
    (h : ∀ e ∈ collectAudio walkOut, e.2 ≠ none) :
    generate_json (some walkOut) = .ok (specManifest walkOut) := by
  unfold generate_json
  rw [show (some walkOut).getD [] = walkOut from rfl, probeAll_ok _ h,
    collectAudio_eq, List.map_map]
  rfl

/-- Witness for C7: a two-directory walk with one matching and one
non-matching file. -/
theorem generate_json_manifest_witness :
    generate_json (some [("/b", [⟨"a.wav", some (320, 2)⟩, ⟨"n.txt", some (7, 1)⟩]),
        ("/b/s", [⟨"c.WAV", some (50, 1)⟩])]) =
      .ok [("/b/a.wav", 160), ("/b/s/c.WAV", 50)] := by
  rw [generate_json_manifest _ (by decide)]
  rfl

/-- C4 counterexample: for a missing `base_path` the walk yields nothing and
`generate_json` succeeds, writing an empty manifest file, instead of failing
fast with no manifest produced. -/
theorem generate_json_missing_root : generate_json none = .ok [] := rfl

/-- C4 (amended): if the header of a collected file cannot be probed,
`generate_json` fails fast with an error naming a path and no manifest file
is written; but if `base_path` does not exist, the walk silently yields no
files and an empty manifest is written. -/
theorem generate_json_failure_modes (walkOut : WalkOutput)
    (h : ∃ e ∈ collectAudio walkOut, e.2 = none) :
    (∃ p, generate_json (some walkOut) = .error p) ∧
      generate_json none = .ok [] := by
  refine ⟨?_, rfl⟩
  unfold generate_json
  exact probeAll_error _ h

/-- Witness for C4 (amended): a walk with one unreadable `.wav` file. -/
theorem generate_json_failure_modes_witness :
    (∃ p, generate_json (some [("/b", [⟨"x.wav", none⟩])]) = .error p) ∧
      generate_json none = .ok [] :=
  generate_json_failure_modes [("/b", [⟨"x.wav", none⟩])] (by decide)

end Denoiser

namespace Denoiser

/-! ## Dataset resolution and orchestration: `get_dataset` and `enhance`
(enhance.py lines 101-145)

    if hasattr(args, 'dset'): paths = args.dset
    else: paths = args
    if paths.noisy_json:
        if not os.path.exists(paths.noisy_json):
            generate_json(args.base_path, paths.noisy_json)
        with open(paths.noisy_json) as f: files = json.load(f)
    elif paths.noisy_dir:
        files = find_audio_files(paths.noisy_dir)
    else:
        logger.warning("Small sample set was not provided ... Skipping enhancement.")
        return None
    return Audioset(files, with_path=True, sample_rate=args.sample_rate)

`find_audio_files` and `Audioset` are external collaborators (module
`audio`); the dataset is represented by its manifest list.  Python
truthiness of the optional string flags is modelled: both `None` and the
empty string are falsy. -/

/-- Observable effects of `get_dataset` and `enhance`, in program order. -/
inductive Effect where
  | modelEval
  | generateJson
  | readJson
  | findAudioFiles
  | warn
  | mkLoader
  | makeOutDir
  | barrier
  | inference (streaming : Bool)
  | saveItem (path : String)
deriving DecidableEq

/-- The mutually exclusive input flags, as carried either directly on `args`
or on `args.dset`. -/
structure PathsCfg where
  noisy_json : Option String
  noisy_dir : Option String

/-- The argument record consumed by `get_dataset` and `enhance`, together
with the external state it interacts with: whether the file named by
`noisy_json` exists and what manifest it holds, the walk of `base_path`
(`none` when missing), and the list the external `find_audio_files` returns
for `noisy_dir`. -/
structure Args where
  dset : Option PathsCfg
  noisy_json : Option String
  noisy_dir : Option String
  json_exists : Bool
  json_contents : List (String × Nat)
  base_walk : Option WalkOutput
  dir_files : List (String × Nat)
  streaming : Bool

/-- Python truthiness of an optional string: `None` and `""` are falsy. -/
def truthy : Option String → Bool
  | none => false
  | some s => !(s == "")

/-- Lines 102-105: `paths = args.dset if hasattr(args, 'dset') else args`. -/
def paths_of (a : Args) : PathsCfg :=
  a.dset.getD ⟨a.noisy_json, a.noisy_dir⟩

/-- Model of `get_dataset` (lines 101-117): the dataset is represented by
its manifest list (`none` models the Python `None` returned after the
warning); a `generate_json` failure propagates as the exception it raises.
On a cache miss, `generate_json` writes the cache file and the subsequent
`json.load` reads back exactly what was written. -/
def get_dataset (a : Args) :
    Except String (List Effect × Option (List (String × Nat))) :=
  let paths := paths_of a
  if truthy paths.noisy_json then
    if !a.json_exists then
      match generate_json a.base_walk with
      | .error e => .error e
      | .ok m => .ok ([.generateJson, .readJson], some m)
    else
      .ok ([.readJson], some a.json_contents)
  else if truthy paths.noisy_dir then
    .ok ([.findAudioFiles], some a.dir_files)
  else
    .ok ([.warn], none)

/-- Model of `enhance` (lines 120-145) as its effect trace: model
resolution and `eval()`, dataset construction, loader construction,
rank-0-only output-directory creation, the barrier, and the per-item loop
(inference then save).  The distributed loader partitioning is external;
the trace shown is the single-rank (`world_size = 1`) processing order. -/
def enhance (a : Args) (rank : ℕ) : Except String (List Effect) :=
  match get_dataset a with
  | .error e => .error e
  | .ok (eff, none) => .ok (.modelEval :: eff)
  | .ok (eff, some files) =>
    .ok (.modelEval :: eff ++ [.mkLoader] ++
      (if rank = 0 then [.makeOutDir] else []) ++ [.barrier] ++
      files.flatMap (fun f => [.inference a.streaming, .saveItem f.1]))

end Denoiser

namespace Denoiser

/-- C6: when `noisy_json` is provided (truthy) and the cache file exists,
`get_dataset` deserializes it and returns its contents verbatim; the only
effect is the read — it never calls `generate_json`, so no directory walk,
no header probing and no re-validation against disk happens. -/
theorem get_dataset_cache_hit (a : Args)
    (hj : truthy (paths_of a).noisy_json = true)
    (he : a.json_exists = true) :
    get_dataset a = .ok ([Effect.readJson], some a.json_contents) := by
  unfold get_dataset
  rw [if_pos hj, he]
  rfl

/-- Witness for C6 at a concrete argument record. -/
theorem get_dataset_cache_hit_witness :
    get_dataset ⟨none, some "m.json", none, true, [("/b/a.wav", 160)], none,
        [], false⟩ =
      .ok ([Effect.readJson], some [("/b/a.wav", 160)]) :=
  get_dataset_cache_hit _ (by decide) (by decide)

/-- C8: when neither `noisy_dir` nor `noisy_json` is provided (truthy),
`enhance` resolves the model, logs the warning and returns: the trace
contains no loader construction, no output-directory creation, no barrier,
no inference and no file write. -/
theorem enhance_no_input_noop (a : Args) (rank : ℕ)
    (hj : truthy (paths_of a).noisy_json = false)
    (hd : truthy (paths_of a).noisy_dir = false) :
    enhance a rank = .ok [Effect.modelEval, Effect.warn] := by
  unfold enhance get_dataset
  simp [hj, hd]

/-- Witness for C8 with both flags absent. -/
theorem enhance_no_input_noop_witness :
    enhance ⟨none, none, none, false, [], none, [], false⟩ 0 =
      .ok [Effect.modelEval, Effect.warn] :=
  enhance_no_input_noop _ 0 (by decide) (by decide)

end Denoiser

namespace Denoiser

/-! ## Check-then-create race in `save_wavs` (enhance.py lines 83-87)

    if not os.path.exists(os.path.join(out_dir, cls)):
        os.makedirs(os.path.join(out_dir, cls))

`os.makedirs` is called without `exist_ok=True`, so it raises
`FileExistsError` when the directory appears between the check and the
call.  Two concurrent callers targeting the same subdirectory are modelled
as interleaved executions of the check-then-create sequence over a shared
existence bit; a schedule lists which caller takes each atomic step. -/

/-- Program counter of one caller running the check-then-create sequence. -/
inductive MkdirPC where
  | start
  | checked (sawExists : Bool)
  | done
  | failed
deriving DecidableEq

/-- Shared directory state plus both program counters. -/
structure RaceState where
  dirExists : Bool
  pc1 : MkdirPC
  pc2 : MkdirPC
deriving DecidableEq

/-- One atomic step of one caller: first the `os.path.exists` check; then,
when the check saw no directory, the `os.makedirs` call, which creates the
directory if it is still absent and raises `FileExistsError` otherwise
(no `exist_ok` at enhance.py lines 84 and 87).  A caller whose check saw
the directory skips creation and succeeds. -/
def mkdirStep (dirExists : Bool) : MkdirPC → MkdirPC × Bool
  | .start => (.checked dirExists, dirExists)
  | .checked true => (.done, dirExists)
  | .checked false =>
    if dirExists then (.failed, dirExists) else (.done, true)
  | .done => (.done, dirExists)
  | .failed => (.failed, dirExists)

/-- Advance the caller selected by the schedule entry. -/
def raceStep (s : RaceState) (first : Bool) : RaceState :=
  if first then
    let r := mkdirStep s.dirExists s.pc1
    { s with pc1 := r.1, dirExists := r.2 }
  else
    let r := mkdirStep s.dirExists s.pc2
    { s with pc2 := r.1, dirExists := r.2 }

/-- Run a schedule of interleaved steps. -/
def raceRun (sched : List Bool) (s : RaceState) : RaceState :=
  sched.foldl raceStep s

/-- Both callers at the start, with the directory initially absent or
present. -/
def raceInit (d : Bool) : RaceState := ⟨d, .start, .start⟩

/-- C5 counterexample: under the interleaving check₁, check₂, create₁,
create₂ with the directory initially absent, the second caller's
`os.makedirs` raises `FileExistsError` while the first succeeds — the
"already exists" race is not tolerated, refuting that any two concurrent
callers both succeed. -/
theorem mkdir_race_counterexample :
    (raceRun [true, false, true, false] (raceInit false)).pc2 =
        MkdirPC.failed ∧
      (raceRun [true, false, true, false] (raceInit false)).pc1 =
        MkdirPC.done := by
  decide

/-- C5 (amended): the creation is idempotent for sequential callers — for
either initial state, a caller that runs to completion succeeds, and a
second caller running entirely after it also succeeds, the directory
existing at the end — but interleaved callers can both pass the existence
check, after which the later `os.makedirs` raises `FileExistsError`. -/
theorem mkdir_sequential_safe :
    ∀ d : Bool,
      (raceRun [true, true, false, false] (raceInit d)).pc1 = MkdirPC.done ∧
      (raceRun [true, true, false, false] (raceInit d)).pc2 = MkdirPC.done ∧
      (raceRun [true, true, false, false] (raceInit d)).dirExists = true := by
  decide

end Denoiser
